import Mathlib

/-!
Verification of `crates/release_plz_core/src/published_packages.rs`.

The Rust source is shallowly embedded below. External collaborators
(`Project`, `Repo` from `git_cmd`, the package downloader, the manifest
reader and the vcs-info reader) live in other crates of the repository and
are modelled from the spec's interface section as record fields holding
arbitrary functions; filesystem and git side effects are made explicit as
state records (`PkgDir`, `World`) threaded through the definitions.
-/

namespace ReleasePlz

/-- Embeds `cargo_metadata::Package`, restricted to the fields the resolver
reads: `name` (the lookup key), `version` (distinguishes manifests across
tags) and `publish` (the declared registry destinations). -/
structure Package where
  name : String
  version : String
  publish : Option (List String)
deriving DecidableEq

/-- Embeds `PublishedPackage`: a published package's manifest plus the
SHA1 hash of the commit when the package was published. -/
structure PublishedPackage where
  package : Package
  sha1 : Option String
deriving DecidableEq

/-- Embeds `PublishedPackage::published_at_sha1`. -/
def PublishedPackage.published_at_sha1 (p : PublishedPackage) : Option String :=
  p.sha1

/-- Modelled from the spec: the `Project` collaborator, exposing the
deterministic tag-naming template `git_tag(package_name, version) -> String`.
Its implementation lives outside `published_packages.rs`. -/
structure Project where
  git_tag : String → String → String

/-- Modelled from the spec: the `Repo` collaborator of the `git_cmd` crate.
`tags` is the result of `get_tags_version_sorted(true)` (descending);
`tag_commit` embeds `get_tag_commit`; `add_worktree` embeds worktree
creation at a path for a tag and may fail; `manifest_at` embeds reading the
root manifest metadata of the tree materialized at a tag (the worktree's
content is determined by the tag, so it is keyed by the tag). -/
structure Repo where
  tags : List String
  tag_commit : String → Option String
  add_worktree : String → String → Except String Unit
  manifest_at : String → Except String (List Package)

/-- The state of one downloaded package directory on disk, as
`initialize_registry_package` observes and mutates it.
`vcs_info = some c` means the `.cargo_vcs_info.json` file exists and the
vcs-info reader would yield `c : Option String` from it; `none` means the
file is absent. The `*_error` fields are the outcomes the git subprocess
would report for `git init`, `git add .`, the first `git commit -m init`,
and the commit retried after configuring the throwaway identity. -/
structure PkgDir where
  package : Package
  vcs_info : Option (Option String)
  has_git_repo : Bool
  init_error : Option String
  add_error : Option String
  commit_error : Option String
  commit_error_after_config : Option String
  remove_file_error : Bool
deriving DecidableEq

/-- The ambient operating-system state the collection draws temporary
directories from: `tempdir()` takes the next path from `supply` and fails
(`failed to get a temporary directory`) when none is available. -/
structure World where
  supply : List String
deriving DecidableEq

/-- Embeds `PackagesCollection`: the `BTreeMap<String, PublishedPackage>`
is modelled as an association list with unique keys maintained by
`insertAL`, and the lazily-created `TempDir` by its path. -/
structure PackagesCollection where
  packages : List (String × PublishedPackage)
  temp_dir : Option String
deriving DecidableEq

/-- Map insertion keyed by the first component: replaces the value in
place when the key is present (as `BTreeMap::insert` does), else appends. -/
def insertAL (l : List (String × PublishedPackage)) (k : String) (v : PublishedPackage) :
    List (String × PublishedPackage) :=
  match l with
  | [] => [(k, v)]
  | (k0, v0) :: rest => if k0 = k then (k, v) :: rest else (k0, v0) :: insertAL rest k v

/-- Map lookup by key (as `BTreeMap::get`). -/
def lookupAL (l : List (String × PublishedPackage)) (k : String) : Option PublishedPackage :=
  match l with
  | [] => none
  | (k0, v0) :: rest => if k0 = k then some v0 else lookupAL rest k

/-- Embeds `PackagesCollection::new` (private constructor used by the driver). -/
def PackagesCollection.new : PackagesCollection :=
  { packages := [], temp_dir := none }

/-- Embeds `PackagesCollection::get_published_package`. -/
def PackagesCollection.get_published_package (c : PackagesCollection) (package_name : String) :
    Option PublishedPackage :=
  lookupAL c.packages package_name

/-- Embeds `PackagesCollection::get_package`. -/
def PackagesCollection.get_package (c : PackagesCollection) (package_name : String) :
    Option Package :=
  (c.get_published_package package_name).map PublishedPackage.package

/-- Embeds `PackagesCollection::push`: insert keyed by `package.package.name`. -/
def PackagesCollection.push (c : PackagesCollection) (p : PublishedPackage) :
    PackagesCollection :=
  { c with packages := insertAL c.packages p.package.name p }

/-- Embeds `PackagesCollection::extend`: `BTreeMap::extend` inserts each
item in iteration order, which equals folding `push`. -/
def PackagesCollection.extend (c : PackagesCollection) (ps : List PublishedPackage) :
    PackagesCollection :=
  ps.foldl PackagesCollection.push c

/-- Embeds `PackagesCollection::temp_dir` (the method): allocate the
temporary directory on first call, return the stored one afterwards.
Named `temp_dir_get` because the field projection takes the source name. -/
def PackagesCollection.temp_dir_get (c : PackagesCollection) (w : World) :
    Except String (String × PackagesCollection × World) :=
  match c.temp_dir with
  | some d => .ok (d, c, w)
  | none =>
    match w.supply with
    | [] => .error "failed to get a temporary directory"
    | d :: rest => .ok (d, { c with temp_dir := some d }, { supply := rest })

/-- The leading run of ASCII digits (`(?-u:\d)+`, greedy). -/
def takeDigits (cs : List Char) : List Char :=
  cs.takeWhile Char.isDigit

/-- What remains after the leading run of ASCII digits. -/
def dropDigits (cs : List Char) : List Char :=
  cs.dropWhile Char.isDigit

/-- A match of the anchored pattern `\d+\.\d+\.\d+` at the start of `cs`.
Each `\d+` is greedy, and for this pattern greediness is forced: taking
fewer digits would put a digit where `\.` must stand, so the only viable
match takes each maximal digit run. -/
def semverAt (cs : List Char) : Option (List Char) :=
  let d1 := takeDigits cs
  if d1.isEmpty then none else
    match dropDigits cs with
    | '.' :: r2 =>
      let d2 := takeDigits r2
      if d2.isEmpty then none else
        match dropDigits r2 with
        | '.' :: r4 =>
          let d3 := takeDigits r4
          if d3.isEmpty then none else some (d1 ++ '.' :: (d2 ++ '.' :: d3))
        | _ => none
    | _ => none

/-- `Regex::find` for `SEMVER_RE`: the leftmost position admitting a match
wins (the `regex` crate's leftmost-match semantics). -/
def semverFindChars : List Char → Option (List Char)
  | [] => none
  | c :: cs =>
    match semverAt (c :: cs) with
    | some m => some m
    | none => semverFindChars cs

/-- Embeds `SEMVER_RE.find(tag).as_str()`:
the leftmost `\d+\.\d+\.\d+` match in `s`, if any. -/
def semverFind (s : String) : Option String :=
  (semverFindChars s.toList).map List.asString

/-- Whether a whole string matches `\d+\.\d+\.\d+` (used to state the
spec's claim about version substrings; not part of the source). -/
def isSemverStr (s : String) : Bool :=
  match semverAt s.toList with
  | some m => m == s.toList
  | none => false

/-- `v` occurs as a contiguous substring of `t` (used to state the spec's
claim; not part of the source). -/
def SubstrOf (v t : String) : Prop :=
  ∃ pre post, pre ++ v ++ post = t

/-- Embeds `filter_release_tags`: keep the tags that contain a semver
substring (leftmost match `v`) and are exactly equal to the project's tag
template rendered with the package name and `v`. -/
def filter_release_tags (tags : List String) (package : String) (project : Project) :
    List String :=
  (tags.filterMap (fun tag => (semverFind tag).map (fun v => (tag, v)))).filterMap
    (fun tv => if tv.1 == project.git_tag package tv.2 then some tv.1 else none)

/-- Whether `p` is an initial segment of `s` (char-list core of Rust's
`str::starts_with`). -/
def startsWithChars : List Char → List Char → Bool
  | _, [] => true
  | [], _ :: _ => false
  | c :: cs, p :: ps => c == p && startsWithChars cs ps

/-- Embeds Rust's `str::starts_with` for string slices. -/
def strStartsWith (s pre : String) : Bool :=
  startsWithChars s.toList pre.toList

/-- Embeds Rust's `str::trim`: drop whitespace from both ends. -/
def strTrim (s : String) : String :=
  (((s.toList.dropWhile Char.isWhitespace).reverse.dropWhile Char.isWhitespace).reverse).asString

/-- Embeds one iteration of the loop in `initialize_registry_package`:
handle the `.cargo_vcs_info.json` file (read the recorded sha1 and remove
the file — a removal failure propagates), then, when the directory has no
git repository, run `git init`, `git add .` and `git commit -m init`; when
the commit fails with a message starting (after trimming) with
`Author identity unknown`, configure a throwaway identity and retry the
commit once, propagating a retry failure. Returns the produced
`PublishedPackage` together with the directory's final state. -/
def initialize_one (d : PkgDir) : Except String (PublishedPackage × PkgDir) :=
  match d.vcs_info with
  | some content =>
    if d.remove_file_error then .error "failed to remove vcs info file"
    else initGit { d with vcs_info := none } content
  | none => initGit d none
where
  /-- The git-repository part of the iteration, after the vcs-info file
  has been handled; `sha1` is the commit read from that file, if any. -/
  initGit (d : PkgDir) (sha1 : Option String) : Except String (PublishedPackage × PkgDir) :=
    if d.has_git_repo then .ok ({ package := d.package, sha1 := sha1 }, d)
    else
      match d.init_error with
      | some e => .error e
      | none =>
        match d.add_error with
        | some e => .error e
        | none =>
          match d.commit_error with
          | none => .ok ({ package := d.package, sha1 := sha1 }, { d with has_git_repo := true })
          | some e =>
            if strStartsWith (strTrim e) "Author identity unknown" then
              match d.commit_error_after_config with
              | none =>
                .ok ({ package := d.package, sha1 := sha1 }, { d with has_git_repo := true })
              | some e2 => .error e2
            else
              -- the commit error is not propagated by the source: the
              -- `if let Err(e)` has no else branch
              .ok ({ package := d.package, sha1 := sha1 }, { d with has_git_repo := true })

/-- Embeds `initialize_registry_package`, additionally returning each
directory's final on-disk state next to its `PublishedPackage`. -/
def initialize_registry_package_full :
    List PkgDir → Except String (List (PublishedPackage × PkgDir))
  | [] => .ok []
  | d :: ds =>
    match initialize_one d with
    | .error e => .error e
    | .ok r =>
      match initialize_registry_package_full ds with
      | .error e => .error e
      | .ok rs => .ok (r :: rs)

/-- Embeds `initialize_registry_package`: the list of `PublishedPackage`s
the Rust function returns. -/
def initialize_registry_package (ds : List PkgDir) : Except String (List PublishedPackage) :=
  (initialize_registry_package_full ds).map (List.map Prod.fst)

/-- One invocation of the downloader: the package names, the destination
directory and the optional explicit registry it was configured with. -/
structure DownloadCall where
  names : List String
  dir : String
  registry : Option String
deriving DecidableEq

/-- Modelled from the spec: the collaborators the registry resolver
consumes — `next_ver::publishable_packages_from_manifest` (reads
publishable package metadata from a manifest path) and
`download::PackageDownloader` (downloads the named packages into the
directory from the given registry, yielding the downloaded package
directories). Both live outside `published_packages.rs`. -/
structure RegistryEnv where
  publishable_packages_from_manifest : String → Except String (List Package)
  download : DownloadCall → Except String (List PkgDir)

/-- The registry a package is downloaded from: the caller-supplied
`registry` when given, else the first entry of the package's `publish`
field, else `none` (crates.io). Embeds the closure passed to `chunk_by`. -/
def registry_for (registry : Option String) (p : Package) : Option String :=
  match registry with
  | some r => some r
  | none => p.publish.bind List.head?

/-- Embeds `Itertools::chunk_by`: split the list into maximal contiguous
runs of elements sharing the same key. -/
def chunkBy (key : Package → Option String) : List Package → List (Option String × List Package)
  | [] => []
  | a :: as =>
    match chunkBy key as with
    | [] => [(key a, [a])]
    | (k, g) :: rest =>
      if key a = k then (key a, a :: g) :: rest else (key a, [a]) :: (k, g) :: rest

/-- Embeds the download loop of `get_registry_packages`: one downloader
invocation per group, in order; a failing download aborts the whole call
with the context `failed to download packages`. Also returns the list of
downloader invocations made. -/
def downloadGroups (env : RegistryEnv) (dir : String) :
    List (Option String × List Package) → Except String (List PkgDir × List DownloadCall)
  | [] => .ok ([], [])
  | (r, ps) :: rest =>
    match env.download { names := ps.map Package.name, dir := dir, registry := r } with
    | .error _ => .error "failed to download packages"
    | .ok pds =>
      match downloadGroups env dir rest with
      | .error e => .error e
      | .ok (pds2, calls) =>
        .ok (pds ++ pds2, { names := ps.map Package.name, dir := dir, registry := r } :: calls)

/-- Embeds `PackagesCollection::get_registry_packages`. With a
`registry_manifest`, read the publishable packages from it and extend the
collection with them, each with no sha1. Otherwise allocate (or reuse) the
temporary directory, group the local packages by target registry by
adjacency, download each group, repair each downloaded package's git
metadata and extend the collection. The third component of the result is
the trace of downloader invocations. -/
def get_registry_packages (env : RegistryEnv) (registry_manifest : Option String)
    (local_packages : List Package) (registry : Option String)
    (c : PackagesCollection) (w : World) :
    Except String (PackagesCollection × World × List DownloadCall) :=
  match registry_manifest with
  | some manifest =>
    match env.publishable_packages_from_manifest manifest with
    | .error e => .error e
    | .ok ps =>
      .ok (c.extend (ps.map (fun p => { package := p, sha1 := none })), w, [])
  | none =>
    match c.temp_dir_get w with
    | .error e => .error e
    | .ok (directory, c1, w1) =>
      match downloadGroups env directory (chunkBy (registry_for registry) local_packages) with
      | .error e => .error e
      | .ok (pds, calls) =>
        match initialize_registry_package pds with
        | .error _ => .error "failed to initialize repository package"
        | .ok registry_packages => .ok (c1.extend registry_packages, w1, calls)

/-- Embeds `PackagesCollection::get_latest_tagged_packages`: for each
package, find the first (most recent) matching release tag; when none
matches, skip the package; otherwise allocate (or reuse) the temporary
directory, add a worktree for the tag under a package-named subdirectory,
read the manifest metadata there (failure reported with the tag), find the
package by name in it (absence reported with package and tag), and push
the result keyed by name with the commit the tag points to. -/
def get_latest_tagged_packages (project : Project) (repo : Repo) :
    List Package → PackagesCollection → World → Except String (PackagesCollection × World)
  | [], c, w => .ok (c, w)
  | package :: rest, c, w =>
    match (filter_release_tags repo.tags package.name project).head? with
    | none => get_latest_tagged_packages project repo rest c w
    | some release_tag =>
      match c.temp_dir_get w with
      | .error e => .error e
      | .ok (td, c1, w1) =>
        match repo.add_worktree (td ++ "/" ++ package.name) release_tag with
        | .error e => .error e
        | .ok _ =>
          match repo.manifest_at release_tag with
          | .error _ =>
            .error ("failed to get root manifest metadata at tag " ++ release_tag)
          | .ok pkgs =>
            match pkgs.find? (fun p => p.name == package.name) with
            | none =>
              .error ("could not retrieve package " ++ package.name
                ++ " in manifest at tag " ++ release_tag)
            | some published_package =>
              get_latest_tagged_packages project repo rest
                (c1.push { package := published_package,
                           sha1 := repo.tag_commit release_tag }) w1

/-- Embeds `get_latest_packages`, the exposed driver: build an empty
collection, run registry resolution, then git-tag resolution. -/
def get_latest_packages (project : Project) (repo : Repo) (env : RegistryEnv)
    (registry_packages : List Package) (git_only_packages : List Package)
    (registry_manifest : Option String) (registry : Option String) (w : World) :
    Except String (PackagesCollection × World × List DownloadCall) :=
  match get_registry_packages env registry_manifest registry_packages registry
      PackagesCollection.new w with
  | .error e => .error e
  | .ok (c, w1, calls) =>
    match get_latest_tagged_packages project repo git_only_packages c w1 with
    | .error e => .error e
    | .ok (c2, w2) => .ok (c2, w2, calls)

/-! ### Helper lemmas -/

theorem lookupAL_insertAL_self (l : List (String × PublishedPackage)) (k : String)
    (v : PublishedPackage) : lookupAL (insertAL l k v) k = some v := by
  induction l with
  | nil => simp [insertAL, lookupAL]
  | cons kv rest ih =>
    obtain ⟨k0, v0⟩ := kv
    by_cases h : k0 = k
    · simp [insertAL, h, lookupAL]
    · simp [insertAL, h, lookupAL, ih]

theorem lookupAL_insertAL_ne (l : List (String × PublishedPackage)) (k n : String)
    (v : PublishedPackage) (h : n ≠ k) : lookupAL (insertAL l k v) n = lookupAL l n := by
  induction l with
  | nil => simp [insertAL, lookupAL, Ne.symm h]
  | cons kv rest ih =>
    obtain ⟨k0, v0⟩ := kv
    by_cases h0 : k0 = k
    · subst h0
      simp [insertAL, lookupAL, Ne.symm h]
    · simp only [insertAL, if_neg h0, lookupAL]
      by_cases h1 : k0 = n
      · simp [h1]
      · simp [h1, ih]

theorem mem_keys_insertAL (l : List (String × PublishedPackage)) (k n : String)
    (v : PublishedPackage) :
    n ∈ (insertAL l k v).map Prod.fst ↔ n = k ∨ n ∈ l.map Prod.fst := by
  induction l with
  | nil => simp [insertAL]
  | cons kv rest ih =>
    obtain ⟨k0, v0⟩ := kv
    by_cases h : k0 = k
    · subst h
      have he : insertAL ((k0, v0) :: rest) k0 v = (k0, v) :: rest := by
        simp [insertAL]
      rw [he]
      simp only [List.map_cons, List.mem_cons]
      tauto
    · have he : insertAL ((k0, v0) :: rest) k v = (k0, v0) :: insertAL rest k v := by
        simp [insertAL, h]
      rw [he]
      simp only [List.map_cons, List.mem_cons, ih]
      tauto

theorem nodup_keys_insertAL (l : List (String × PublishedPackage)) (k : String)
    (v : PublishedPackage) (h : (l.map Prod.fst).Nodup) :
    ((insertAL l k v).map Prod.fst).Nodup := by
  induction l with
  | nil => simp [insertAL]
  | cons kv rest ih =>
    obtain ⟨k0, v0⟩ := kv
    simp only [List.map_cons, List.nodup_cons] at h
    by_cases h0 : k0 = k
    · subst h0
      simpa [insertAL] using h
    · simp only [insertAL, if_neg h0, List.map_cons, List.nodup_cons]
      refine ⟨?_, ih h.2⟩
      rw [mem_keys_insertAL]
      rintro (rfl | hmem)
      · exact h0 rfl
      · exact h.1 hmem

theorem push_packages (c : PackagesCollection) (p : PublishedPackage) :
    (c.push p).packages = insertAL c.packages p.package.name p := rfl

theorem push_temp_dir (c : PackagesCollection) (p : PublishedPackage) :
    (c.push p).temp_dir = c.temp_dir := rfl

theorem extend_temp_dir (c : PackagesCollection) (ps : List PublishedPackage) :
    (c.extend ps).temp_dir = c.temp_dir := by
  induction ps generalizing c with
  | nil => rfl
  | cons p ps ih => exact (ih (c.push p)).trans rfl

theorem get_published_package_extend (c : PackagesCollection) (ps : List PublishedPackage)
    (n : String) :
    (c.extend ps).get_published_package n =
      match ps.reverse.find? (fun p => p.package.name == n) with
      | some p => some p
      | none => c.get_published_package n := by
  induction ps generalizing c with
  | nil => simp [PackagesCollection.extend]
  | cons p ps ih =>
    have hstep : c.extend (p :: ps) = (c.push p).extend ps := rfl
    rw [hstep, ih, List.reverse_cons, List.find?_append]
    cases hf : ps.reverse.find? (fun q => q.package.name == n) with
    | some q => simp
    | none =>
      simp only [Option.none_or]
      by_cases hn : p.package.name = n
      · simp only [List.find?_cons, List.find?_nil, hn, beq_self_eq_true]
        simpa [PackagesCollection.get_published_package, push_packages, hn]
          using lookupAL_insertAL_self c.packages n p
      · have hb : (p.package.name == n) = false := beq_eq_false_iff_ne.mpr hn
        simp only [List.find?_cons, List.find?_nil, hb]
        simpa [PackagesCollection.get_published_package, push_packages]
          using lookupAL_insertAL_ne c.packages p.package.name n p (fun he => hn he.symm)

theorem temp_dir_get_ok (c c1 : PackagesCollection) (w w1 : World) (d : String)
    (h : c.temp_dir_get w = .ok (d, c1, w1)) :
    c1.temp_dir = some d ∧ c1.packages = c.packages := by
  unfold PackagesCollection.temp_dir_get at h
  cases htd : c.temp_dir with
  | some d0 =>
    rw [htd] at h
    injection h with h
    obtain ⟨rfl, rfl, rfl⟩ : d0 = d ∧ c = c1 ∧ w = w1 := by
      refine ⟨congrArg Prod.fst h, ?_, ?_⟩
      · exact congrArg (fun x => x.2.1) h
      · exact congrArg (fun x => x.2.2) h
    exact ⟨htd, rfl⟩
  | none =>
    rw [htd] at h
    cases hs : w.supply with
    | nil => rw [hs] at h; exact absurd h (by simp)
    | cons d0 rest =>
      rw [hs] at h
      injection h with h
      have hd : d0 = d := congrArg Prod.fst h
      have hc : ({ c with temp_dir := some d0 } : PackagesCollection) = c1 :=
        congrArg (fun x => x.2.1) h
      subst hd
      rw [← hc]
      exact ⟨rfl, rfl⟩

theorem temp_dir_get_some (c : PackagesCollection) (w : World) (d : String)
    (h : c.temp_dir = some d) : c.temp_dir_get w = .ok (d, c, w) := by
  unfold PackagesCollection.temp_dir_get
  rw [h]

theorem mem_filter_release_tags (tags : List String) (p t : String) (proj : Project) :
    t ∈ filter_release_tags tags p proj ↔
      t ∈ tags ∧ ∃ v, semverFind t = some v ∧ proj.git_tag p v = t := by
  unfold filter_release_tags
  simp only [List.mem_filterMap, Option.map_eq_some']
  constructor
  · rintro ⟨b, ⟨a, ha, v0, hv0, hpair⟩, hif⟩
    subst hpair
    dsimp only at hif
    by_cases hcond : (a == proj.git_tag p v0) = true
    · rw [if_pos hcond] at hif
      injection hif with hif
      subst hif
      exact ⟨ha, v0, hv0, (beq_iff_eq.mp hcond).symm⟩
    · rw [if_neg hcond] at hif
      exact absurd hif (by simp)
  · rintro ⟨ht, v, hv, heq⟩
    refine ⟨(t, v), ⟨t, ht, v, hv, rfl⟩, ?_⟩
    dsimp only
    rw [heq, if_pos (beq_iff_eq.mpr rfl)]

theorem downloadGroups_calls (env : RegistryEnv) (d : String) :
    ∀ (gs : List (Option String × List Package)) (pds : List PkgDir)
      (calls : List DownloadCall),
      downloadGroups env d gs = .ok (pds, calls) →
      calls = gs.map (fun g => { names := g.2.map Package.name, dir := d, registry := g.1 })
  | [], pds, calls, h => by
    unfold downloadGroups at h
    injection h with h
    exact (congrArg Prod.snd h).symm
  | (r, ps) :: rest, pds, calls, h => by
    unfold downloadGroups at h
    cases hd : env.download { names := ps.map Package.name, dir := d, registry := r } with
    | error e => rw [hd] at h; exact absurd h (by simp)
    | ok pds0 =>
      rw [hd] at h
      cases hrest : downloadGroups env d rest with
      | error e => rw [hrest] at h; exact absurd h (by simp)
      | ok pr =>
        obtain ⟨pds1, calls1⟩ := pr
        rw [hrest] at h
        injection h with h
        have hcalls := (congrArg Prod.snd h).symm
        simp only at hcalls
        rw [hcalls, downloadGroups_calls env d rest pds1 calls1 hrest]
        rfl

theorem tagged_preserves_temp_dir (project : Project) (repo : Repo) :
    ∀ (ps : List Package) (c : PackagesCollection) (w : World)
      (c2 : PackagesCollection) (w2 : World) (d : String),
      c.temp_dir = some d →
      get_latest_tagged_packages project repo ps c w = .ok (c2, w2) →
      c2.temp_dir = some d
  | [], c, w, c2, w2, d, hd, h => by
    unfold get_latest_tagged_packages at h
    injection h with h
    have h2 : c = c2 := congrArg Prod.fst h
    rw [← h2]
    exact hd
  | package :: rest, c, w, c2, w2, d, hd, h => by
    unfold get_latest_tagged_packages at h
    split at h
    · exact tagged_preserves_temp_dir project repo rest c w c2 w2 d hd h
    · rename_i release_tag hhead
      split at h
      · exact Except.noConfusion h
      · rename_i td c1 w1 htd
        have hok := (temp_dir_get_some c w d hd).symm.trans htd
        injection hok with hok
        have h1 : d = td := congrArg Prod.fst hok
        have h2 : c = c1 := congrArg (fun x => x.2.1) hok
        have h3 : w = w1 := congrArg (fun x => x.2.2) hok
        subst h1
        subst h2
        subst h3
        split at h
        · exact Except.noConfusion h
        · split at h
          · exact Except.noConfusion h
          · split at h
            · exact Except.noConfusion h
            · rename_i published_package hf
              exact tagged_preserves_temp_dir project repo rest
                (c.push { package := published_package,
                          sha1 := repo.tag_commit release_tag }) w c2 w2 d hd h

theorem registry_preserves_temp_dir (env : RegistryEnv) (rm : Option String)
    (ps : List Package) (reg : Option String) (c : PackagesCollection) (w : World)
    (c2 : PackagesCollection) (w2 : World) (calls : List DownloadCall) (d : String)
    (hd : c.temp_dir = some d)
    (h : get_registry_packages env rm ps reg c w = .ok (c2, w2, calls)) :
    c2.temp_dir = some d := by
  unfold get_registry_packages at h
  split at h
  · split at h
    · exact Except.noConfusion h
    · injection h with h
      have h2 : _ = c2 := congrArg Prod.fst h
      rw [← h2, extend_temp_dir]
      exact hd
  · split at h
    · exact Except.noConfusion h
    · rename_i directory c1 w1 htd
      have hok := (temp_dir_get_some c w d hd).symm.trans htd
      injection hok with hok
      have h1 : d = directory := congrArg Prod.fst hok
      have hc1 : c = c1 := congrArg (fun x => x.2.1) hok
      subst h1
      subst hc1
      split at h
      · exact Except.noConfusion h
      · split at h
        · exact Except.noConfusion h
        · injection h with h
          have h2 : _ = c2 := congrArg Prod.fst h
          rw [← h2, extend_temp_dir]
          exact hd

theorem head?_mem {α : Type} {l : List α} {a : α} (h : l.head? = some a) : a ∈ l := by
  cases l with
  | nil => exact absurd h (by simp)
  | cons b bs =>
    simp only [List.head?_cons] at h
    injection h with h
    rw [← h]
    exact List.mem_cons_self b bs

/-- Every entry readable from the collection after a run of the git-tag
resolver either was already present or is derived from the first release
tag matching its own name: its manifest metadata carries that name and its
sha1 is the commit of that tag. -/
theorem tagged_lookup_cases (project : Project) (repo : Repo) :
    ∀ (ps : List Package) (c : PackagesCollection) (w : World)
      (c2 : PackagesCollection) (w2 : World),
      get_latest_tagged_packages project repo ps c w = .ok (c2, w2) →
      ∀ (n : String) (pp : PublishedPackage),
        c2.get_published_package n = some pp →
        c.get_published_package n = some pp ∨
        ∃ t, (filter_release_tags repo.tags n project).head? = some t
          ∧ t ∈ repo.tags
          ∧ ∃ mp, mp.name = n ∧ pp = { package := mp, sha1 := repo.tag_commit t }
  | [], c, w, c2, w2, h, n, pp, hpp => by
    unfold get_latest_tagged_packages at h
    injection h with h
    have h2 : c = c2 := congrArg Prod.fst h
    rw [← h2] at hpp
    exact Or.inl hpp
  | package :: rest, c, w, c2, w2, h, n, pp, hpp => by
    unfold get_latest_tagged_packages at h
    split at h
    · exact tagged_lookup_cases project repo rest c w c2 w2 h n pp hpp
    · rename_i release_tag hhead
      split at h
      · exact Except.noConfusion h
      · rename_i td c1 w1 htd
        split at h
        · exact Except.noConfusion h
        · split at h
          · exact Except.noConfusion h
          · split at h
            · exact Except.noConfusion h
            · rename_i published_package hf
              have hcases := tagged_lookup_cases project repo rest
                (c1.push { package := published_package,
                           sha1 := repo.tag_commit release_tag }) w1 c2 w2 h n pp hpp
              rcases hcases with hleft | hright
              · -- the entry comes from this push or was already in c1 = c
                have hname : published_package.name = package.name := by
                  have hb := List.find?_some hf
                  simpa using hb
                have hc1 : c1.packages = c.packages := (temp_dir_get_ok c c1 w w1 td htd).2
                by_cases hn : published_package.name = n
                · -- it is exactly the pushed entry
                  rw [PackagesCollection.get_published_package, push_packages, hn,
                    lookupAL_insertAL_self] at hleft
                  injection hleft with hleft
                  refine Or.inr ⟨release_tag, ?_, ?_, published_package, hn, hleft.symm⟩
                  · rw [show n = package.name from hn.symm.trans hname]
                    exact hhead
                  · have hmem := head?_mem hhead
                    exact ((mem_filter_release_tags repo.tags package.name release_tag
                      project).mp hmem).1
                · rw [PackagesCollection.get_published_package, push_packages,
                    lookupAL_insertAL_ne _ _ _ _ (fun he => hn he.symm), hc1] at hleft
                  exact Or.inl hleft
              · exact Or.inr hright

/-! ### Concrete fixtures used by witnesses and counterexamples -/

/-- A local package record. -/
def papp : Package := { name := "app", version := "0.0.0", publish := none }

/-- A downloaded package directory whose first commit fails for a reason
other than a missing author identity. -/
def d0 : PkgDir :=
  { package := papp, vcs_info := none, has_git_repo := false,
    init_error := none, add_error := none,
    commit_error := some "fatal: could not commit", commit_error_after_config := none,
    remove_file_error := false }

/-- A template that puts the version at the end after a constant prefix
that itself contains a `d+.d+.d+` substring. -/
def projC2 : Project := { git_tag := fun _ v => "0.0.0-" ++ v }

/-- The template `name -> version: "{name}-v{version}"`. -/
def projN : Project := { git_tag := fun n v => n ++ "-v" ++ v }

/-- A repository with two release tags for `app`, both recognized by
`projN`, sorted by version descending. -/
def repoN : Repo :=
  { tags := ["app-v2.0.0", "app-v1.0.0"],
    tag_commit := fun t => some ("sha-" ++ t),
    add_worktree := fun _ _ => .ok (),
    manifest_at := fun t =>
      .ok [{ name := "app",
             version := if t == "app-v2.0.0" then "2.0.0" else "1.0.0",
             publish := none }] }

/-! ### Claims -/

/-- Claim C1, counterexample: the claim says any commit failure other than
the missing-identity case makes the whole resolution call fail, but the
source drops such an error (`if let Err(e)` with no else branch): on a
directory whose commit fails with `fatal: could not commit`,
`initialize_registry_package` succeeds. -/
theorem claim_c1_counterexample :
    ¬ (∀ (d : PkgDir) (e : String),
        d.has_git_repo = false → d.init_error = none → d.add_error = none →
        d.commit_error = some e →
        strStartsWith (strTrim e) "Author identity unknown" = false →
        ∃ err, initialize_registry_package [d] = Except.error err) := by
  intro hclaim
  obtain ⟨err, herr⟩ := hclaim d0 "fatal: could not commit" rfl rfl rfl rfl (by decide)
  have hok : initialize_registry_package [d0] =
      Except.ok [{ package := papp, sha1 := none }] := rfl
  rw [hok] at herr
  exact Except.noConfusion herr

/-- Claim C1 (amended): during git-metadata repair of a downloaded
registry package, a commit failure in the missing-identity case is
auto-remedied by setting a throwaway identity and retrying the commit
exactly once, and a failure of that retry is fatal; a commit failure for
any other reason is silently ignored and the resolution call succeeds. -/
theorem claim_c1_amended_commit_retry (d : PkgDir) (e : String)
    (hgr : d.has_git_repo = false) (hi : d.init_error = none) (ha : d.add_error = none)
    (hrm : d.remove_file_error = false) (hc : d.commit_error = some e) :
    (strStartsWith (strTrim e) "Author identity unknown" = false →
      ∃ pps, initialize_registry_package [d] = .ok pps)
    ∧ (strStartsWith (strTrim e) "Author identity unknown" = true →
        (d.commit_error_after_config = none →
          ∃ pps, initialize_registry_package [d] = .ok pps)
        ∧ (∀ e2, d.commit_error_after_config = some e2 →
            initialize_registry_package [d] = .error e2)) := by
  refine ⟨fun hid => ?_, fun hid => ⟨fun hcfg => ?_, fun e2 hcfg => ?_⟩⟩
  · cases hv : d.vcs_info with
    | none =>
      refine ⟨[{ package := d.package, sha1 := none }], ?_⟩
      simp [initialize_registry_package, initialize_registry_package_full, initialize_one,
        initialize_one.initGit, Except.map, hv, hgr, hi, ha, hc, hid]
    | some content =>
      refine ⟨[{ package := d.package, sha1 := content }], ?_⟩
      simp [initialize_registry_package, initialize_registry_package_full, initialize_one,
        initialize_one.initGit, Except.map, hv, hrm, hgr, hi, ha, hc, hid]
  · cases hv : d.vcs_info with
    | none =>
      refine ⟨[{ package := d.package, sha1 := none }], ?_⟩
      simp [initialize_registry_package, initialize_registry_package_full, initialize_one,
        initialize_one.initGit, Except.map, hv, hgr, hi, ha, hc, hid, hcfg]
    | some content =>
      refine ⟨[{ package := d.package, sha1 := content }], ?_⟩
      simp [initialize_registry_package, initialize_registry_package_full, initialize_one,
        initialize_one.initGit, Except.map, hv, hrm, hgr, hi, ha, hc, hid, hcfg]
  · cases hv : d.vcs_info with
    | none =>
      simp [initialize_registry_package, initialize_registry_package_full, initialize_one,
        initialize_one.initGit, Except.map, hv, hgr, hi, ha, hc, hid, hcfg]
    | some content =>
      simp [initialize_registry_package, initialize_registry_package_full, initialize_one,
        initialize_one.initGit, Except.map, hv, hrm, hgr, hi, ha, hc, hid, hcfg]

/-- Claim C1, witness: the amended theorem applied to `d0`. -/
theorem claim_c1_amended_commit_retry_witness :
    ∃ pps, initialize_registry_package [d0] = .ok pps :=
  (claim_c1_amended_commit_retry d0 "fatal: could not commit"
    rfl rfl rfl rfl rfl).1 (by decide)

/-- Claim C2, counterexample: the inclusion condition is not "there exists
a `d+.d+.d+` substring whose rendering equals the tag": with the template
`"0.0.0-" ++ version` and the tag `"0.0.0-1.2.3"`, the substring `1.2.3`
renders exactly to the tag, yet the tag is excluded, because the source
renders only the leftmost regex match (`0.0.0`). -/
theorem claim_c2_counterexample :
    ¬ (("0.0.0-1.2.3" ∈ filter_release_tags ["0.0.0-1.2.3"] "mypkg" projC2) ↔
        ∃ v, SubstrOf v "0.0.0-1.2.3" ∧ isSemverStr v = true ∧
          projC2.git_tag "mypkg" v = "0.0.0-1.2.3") := by
  intro hiff
  have hmem := hiff.mpr ⟨"1.2.3", ⟨"0.0.0-", "", by decide⟩, by decide, by decide⟩
  exact absurd hmem (by decide)

/-- Claim C2 (amended): `filter_release_tags` includes a tag `t` for
package `p` iff `t` is among the input tags, `t` contains a `d+.d+.d+`
substring, and the project's template rendered with `p` and the *leftmost*
such match `v` (`semverFind t`) is exactly equal to `t`. -/
theorem claim_c2_amended_leftmost_match (tags : List String) (p t : String) (proj : Project) :
    t ∈ filter_release_tags tags p proj ↔
      t ∈ tags ∧ ∃ v, semverFind t = some v ∧ proj.git_tag p v = t :=
  mem_filter_release_tags tags p t proj

/-- Claim C3: every package resolved via git tags and inserted into the
collection has `published_at_sha1 = some` of the commit id of the matched
tag (the first tag of the version-sorted list whose rendering matches the
package's name), provided the repository resolves each of its listed tags
to a commit. -/
theorem claim_c3_tagged_sha1 (project : Project) (repo : Repo) (ps : List Package)
    (c c2 : PackagesCollection) (w w2 : World) (n : String) (pp : PublishedPackage)
    (hrepo : ∀ t ∈ repo.tags, (repo.tag_commit t).isSome = true)
    (hok : get_latest_tagged_packages project repo ps c w = .ok (c2, w2))
    (hold : c.get_published_package n = none)
    (hnew : c2.get_published_package n = some pp) :
    ∃ t, (filter_release_tags repo.tags n project).head? = some t
      ∧ pp.sha1 = repo.tag_commit t
      ∧ pp.published_at_sha1.isSome = true := by
  rcases tagged_lookup_cases project repo ps c w c2 w2 hok n pp hnew with
    hl | ⟨t, hh, hmem, mp, hname, hpp⟩
  · rw [hold] at hl
    exact Option.noConfusion hl
  · refine ⟨t, hh, ?_, ?_⟩
    · rw [hpp]
    · rw [PublishedPackage.published_at_sha1, hpp]
      exact hrepo t hmem

/-- Claim C4: when more than one version-sorted tag matches, the resolver
records the entry derived from the first matching tag and no other: for a
single resolved package the collection holds exactly the manifest entry
found at that tag together with that tag's commit. -/
theorem claim_c4_first_matching_tag (project : Project) (repo : Repo) (pkg : Package)
    (c c2 : PackagesCollection) (w w2 : World) (t : String)
    (hhead : (filter_release_tags repo.tags pkg.name project).head? = some t)
    (hok : get_latest_tagged_packages project repo [pkg] c w = .ok (c2, w2)) :
    ∃ pkgs mp, repo.manifest_at t = .ok pkgs
      ∧ pkgs.find? (fun p => p.name == pkg.name) = some mp
      ∧ c2.get_published_package pkg.name =
          some { package := mp, sha1 := repo.tag_commit t } := by
  unfold get_latest_tagged_packages at hok
  split at hok
  · rename_i hh
    rw [hh] at hhead
    exact Option.noConfusion hhead
  · rename_i release_tag hh
    have hrt : release_tag = t := by
      rw [hh] at hhead
      injection hhead
    subst hrt
    split at hok
    · exact Except.noConfusion hok
    · rename_i td c1 w1 htd
      split at hok
      · exact Except.noConfusion hok
      · split at hok
        · exact Except.noConfusion hok
        · rename_i pkgs hman
          split at hok
          · exact Except.noConfusion hok
          · rename_i mp hf
            unfold get_latest_tagged_packages at hok
            injection hok with hok
            have hc2 : c1.push { package := mp, sha1 := repo.tag_commit release_tag } = c2 :=
              congrArg Prod.fst hok
            have hname : mp.name = pkg.name := by
              have hb := List.find?_some hf
              simpa using hb
            refine ⟨pkgs, mp, hman, hf, ?_⟩
            rw [← hc2, PackagesCollection.get_published_package, push_packages]
            dsimp only
            rw [hname, lookupAL_insertAL_self]

/-- Claim C8: a package with no matching release tag is skipped without
error — resolving it together with the rest equals resolving the rest
alone — and it is absent from the resulting collection when it was absent
before. -/
theorem claim_c8_no_tag_skip (project : Project) (repo : Repo) (pkg : Package)
    (rest : List Package) (c : PackagesCollection) (w : World)
    (hmatch : filter_release_tags repo.tags pkg.name project = []) :
    get_latest_tagged_packages project repo (pkg :: rest) c w
      = get_latest_tagged_packages project repo rest c w
    ∧ (∀ c2 w2, get_latest_tagged_packages project repo (pkg :: rest) c w = .ok (c2, w2) →
        c.get_published_package pkg.name = none →
        c2.get_published_package pkg.name = none) := by
  have hstep : get_latest_tagged_packages project repo (pkg :: rest) c w
      = get_latest_tagged_packages project repo rest c w := by
    conv_lhs => rw [get_latest_tagged_packages]
    rw [hmatch]
    rfl
  refine ⟨hstep, fun c2 w2 hok hold => ?_⟩
  rw [hstep] at hok
  cases hlk : c2.get_published_package pkg.name with
  | none => rfl
  | some pp =>
    rcases tagged_lookup_cases project repo rest c w c2 w2 hok pkg.name pp hlk with
      hl | ⟨t, hh, _⟩
    · rw [hold] at hl
      exact Option.noConfusion hl
    · rw [hmatch] at hh
      exact absurd hh (by simp)

theorem nodup_keys_extend (c : PackagesCollection) (ps : List PublishedPackage)
    (h : (c.packages.map Prod.fst).Nodup) :
    ((c.extend ps).packages.map Prod.fst).Nodup := by
  induction ps generalizing c with
  | nil => exact h
  | cons p ps ih => exact ih (c.push p) (nodup_keys_insertAL c.packages p.package.name p h)

/-- Claim C5: registry resolution of a downloaded package directory with
no vcs-info file yields an entry with no origin commit; with a vcs-info
file it yields the commit recorded there and deletes the file; a failure
to delete the file is surfaced as an error. (The git-repair steps are
assumed to succeed: `init`, `add` and `commit` report no error.) -/
theorem claim_c5_vcs_info (d : PkgDir)
    (hi : d.init_error = none) (ha : d.add_error = none) (hc : d.commit_error = none) :
    (d.vcs_info = none →
      ∃ dd, initialize_registry_package_full [d]
        = .ok [({ package := d.package, sha1 := none }, dd)])
    ∧ (∀ s, d.vcs_info = some s → d.remove_file_error = false →
        ∃ dd, initialize_registry_package_full [d]
            = .ok [({ package := d.package, sha1 := s }, dd)]
          ∧ dd.vcs_info = none)
    ∧ (∀ s, d.vcs_info = some s → d.remove_file_error = true →
        initialize_registry_package_full [d] = .error "failed to remove vcs info file") := by
  refine ⟨fun hv => ?_, fun s hv hrm => ?_, fun s hv hrm => ?_⟩
  · cases hgr : d.has_git_repo
    · exact ⟨{ d with has_git_repo := true }, by
        simp [initialize_registry_package_full, initialize_one,
          initialize_one.initGit, hv, hgr, hi, ha, hc]⟩
    · exact ⟨d, by
        simp [initialize_registry_package_full, initialize_one,
          initialize_one.initGit, hv, hgr]⟩
  · cases hgr : d.has_git_repo
    · refine ⟨{ d with vcs_info := none, has_git_repo := true }, ?_, rfl⟩
      simp [initialize_registry_package_full, initialize_one,
        initialize_one.initGit, hv, hrm, hgr, hi, ha, hc]
    · refine ⟨{ d with vcs_info := none }, ?_, rfl⟩
      simp [initialize_registry_package_full, initialize_one,
        initialize_one.initGit, hv, hrm, hgr]
  · simp [initialize_registry_package_full, initialize_one, hv, hrm]

/-- Claim C6: in the download path, each package's target registry is the
override when given, else the first entry of its `publish` list, else the
default (`none`); the downloader is invoked once per maximal contiguous
run of packages sharing that key (adjacency chunking), in order, every
time with the collection's temporary directory. -/
theorem claim_c6_registry_grouping (env : RegistryEnv) (reg : Option String)
    (ps : List Package) (c c2 : PackagesCollection) (w w2 : World)
    (calls : List DownloadCall)
    (hok : get_registry_packages env none ps reg c w = .ok (c2, w2, calls)) :
    (∀ p r, registry_for (some r) p = some r)
    ∧ (∀ p, registry_for none p = p.publish.bind List.head?)
    ∧ ∃ d, c2.temp_dir = some d
        ∧ calls = (chunkBy (registry_for reg) ps).map
            (fun g => { names := g.2.map Package.name, dir := d, registry := g.1 }) := by
  refine ⟨fun p r => rfl, fun p => rfl, ?_⟩
  simp only [get_registry_packages] at hok
  split at hok
  · exact Except.noConfusion hok
  · rename_i directory c1 w1 htd
    split at hok
    · exact Except.noConfusion hok
    · rename_i pds calls1 hdl
      split at hok
      · exact Except.noConfusion hok
      · rename_i pubs hin
        injection hok with hok
        refine ⟨directory, ?_, ?_⟩
        · have hc2 : c1.extend pubs = c2 := congrArg Prod.fst hok
          rw [← hc2, extend_temp_dir]
          exact (temp_dir_get_ok c c1 w w1 directory htd).1
        · have hcalls : calls1 = calls := congrArg (fun x => x.2.2) hok
          rw [← hcalls]
          exact downloadGroups_calls env directory _ pds calls1 hdl

/-- Claim C7: the collection is a map keyed by package name — `push`
overwrites the entry of the pushed package's name, a sequence of
insertions keeps the keys unique, `get_published_package` returns the most
recently inserted entry for the name, and `get_package` is its package
metadata. -/
theorem claim_c7_collection_lookup (c : PackagesCollection) (ps : List PublishedPackage)
    (n : String) (q : PublishedPackage)
    (h : (c.packages.map Prod.fst).Nodup) :
    ((c.extend ps).packages.map Prod.fst).Nodup
    ∧ (c.extend ps).get_published_package n =
        (match ps.reverse.find? (fun p => p.package.name == n) with
          | some p => some p
          | none => c.get_published_package n)
    ∧ (c.push q).get_published_package q.package.name = some q
    ∧ (c.extend ps).get_package n
        = ((c.extend ps).get_published_package n).map PublishedPackage.package := by
  refine ⟨nodup_keys_extend c ps h, get_published_package_extend c ps n, ?_, rfl⟩
  rw [PackagesCollection.get_published_package, push_packages, lookupAL_insertAL_self]

/-- Claim C9: the scratch directory is created at most once per
collection: a successful `temp_dir` call leaves the directory recorded,
every later call returns the same directory without changing anything, a
call on an already-allocated collection is the identity, and both
resolvers preserve the recorded directory. -/
theorem claim_c9_temp_dir_once (c c1 : PackagesCollection) (w w1 : World) (d : String)
    (h : c.temp_dir_get w = .ok (d, c1, w1)) :
    c1.temp_dir = some d
    ∧ (∀ w2, c1.temp_dir_get w2 = .ok (d, c1, w2))
    ∧ (c.temp_dir = some d → c1 = c ∧ w1 = w)
    ∧ (∀ project repo ps c2 w2 w3,
        get_latest_tagged_packages project repo ps c1 w2 = .ok (c2, w3) →
        c2.temp_dir = some d)
    ∧ (∀ env rm ps reg c2 w2 w3 calls,
        get_registry_packages env rm ps reg c1 w2 = .ok (c2, w3, calls) →
        c2.temp_dir = some d) := by
  have h1 : c1.temp_dir = some d := (temp_dir_get_ok c c1 w w1 d h).1
  refine ⟨h1, fun w2 => temp_dir_get_some c1 w2 d h1, fun hcd => ?_,
    fun project repo ps c2 w2 w3 hh =>
      tagged_preserves_temp_dir project repo ps c1 w2 c2 w3 d h1 hh,
    fun env rm ps reg c2 w2 w3 calls hh =>
      registry_preserves_temp_dir env rm ps reg c1 w2 c2 w3 calls d h1 hh⟩
  have heq := (temp_dir_get_some c w d hcd).symm.trans h
  injection heq with heq
  have hcc : c = c1 := congrArg (fun x => x.2.1) heq
  have hww : w = w1 := congrArg (fun x => x.2.2) heq
  exact ⟨hcc.symm, hww.symm⟩

/-- Claim C10: with a registry manifest supplied, registry resolution
leaves the temporary directory untouched, consumes no directory from the
operating system, and invokes no downloader. -/
theorem claim_c10_manifest_frame (env : RegistryEnv) (m : String) (ps : List Package)
    (reg : Option String) (c c2 : PackagesCollection) (w w2 : World)
    (calls : List DownloadCall)
    (h : get_registry_packages env (some m) ps reg c w = .ok (c2, w2, calls)) :
    c2.temp_dir = c.temp_dir ∧ w2 = w ∧ calls = [] := by
  simp only [get_registry_packages] at h
  split at h
  · exact Except.noConfusion h
  · rename_i pres hman
    injection h with h
    refine ⟨?_, ?_, ?_⟩
    · have hc2 : _ = c2 := congrArg Prod.fst h
      rw [← hc2, extend_temp_dir]
    · exact (congrArg (fun x => x.2.1) h : w = w2).symm
    · exact (congrArg (fun x => x.2.2) h : ([] : List DownloadCall) = calls).symm

/-! ### Witnesses -/

/-- A package with no matching release tag in `repoN` under `projN`. -/
def plib : Package := { name := "lib", version := "0.1.0", publish := none }

/-- Three local packages whose registries (`r1`, `r2`, `r1`) are not
contiguous, so adjacency chunking fragments them into three groups. -/
def pr1 : Package := { name := "a", version := "1", publish := some ["r1"] }

def pr2 : Package := { name := "b", version := "1", publish := some ["r2"] }

def pr3 : Package := { name := "c", version := "1", publish := some ["r1"] }

/-- A registry environment whose downloads all succeed with no package
directories and whose manifest reader yields `[papp]`. -/
def env0 : RegistryEnv :=
  { publishable_packages_from_manifest := fun _ => .ok [papp],
    download := fun _ => .ok [] }

/-- The entry the git-tag resolver derives from the tag `app-v2.0.0`. -/
def ppN : PublishedPackage :=
  { package := { name := "app", version := "2.0.0", publish := none },
    sha1 := some "sha-app-v2.0.0" }

/-- The collection after resolving `papp` against `repoN`. -/
def cN : PackagesCollection := { packages := [("app", ppN)], temp_dir := some "tmp" }

/-- A downloaded package directory whose vcs-info file records `abc123`. -/
def dv : PkgDir :=
  { package := papp, vcs_info := some (some "abc123"), has_git_repo := true,
    init_error := none, add_error := none, commit_error := none,
    commit_error_after_config := none, remove_file_error := false }

/-- The collection after the download path ran with no downloaded dirs. -/
def cR : PackagesCollection := { packages := [], temp_dir := some "tmp" }

/-- The downloader invocations for `[pr1, pr2, pr3]`: three fragments. -/
def callsR : List DownloadCall :=
  [{ names := ["a"], dir := "tmp", registry := some "r1" },
   { names := ["b"], dir := "tmp", registry := some "r2" },
   { names := ["c"], dir := "tmp", registry := some "r1" }]

/-- Two insertions under the same name; the later one wins. -/
def q1 : PublishedPackage :=
  { package := { name := "app", version := "1.0.0", publish := none }, sha1 := none }

def q2 : PublishedPackage :=
  { package := { name := "app", version := "2.0.0", publish := none }, sha1 := some "s" }

/-- A collection whose scratch directory is already allocated at `tmpA`. -/
def cT : PackagesCollection := { packages := [], temp_dir := some "tmpA" }

/-- The collection after manifest-based registry resolution. -/
def cM : PackagesCollection :=
  { packages := [("app", { package := papp, sha1 := none })], temp_dir := none }

/-- Claim C3, witness: resolving `papp` against `repoN` yields an entry
whose sha1 is the commit of the matched tag. -/
theorem claim_c3_tagged_sha1_witness :
    ∃ t, (filter_release_tags repoN.tags "app" projN).head? = some t
      ∧ ppN.sha1 = repoN.tag_commit t
      ∧ ppN.published_at_sha1.isSome = true :=
  claim_c3_tagged_sha1 projN repoN [papp] .new cN { supply := ["tmp"] } { supply := [] }
    "app" ppN (fun _ _ => rfl) rfl rfl rfl

/-- Claim C4, witness: with tags `["app-v2.0.0", "app-v1.0.0"]` both
matching, the recorded entry is derived from `app-v2.0.0`. -/
theorem claim_c4_first_matching_tag_witness :
    ∃ pkgs mp, repoN.manifest_at "app-v2.0.0" = .ok pkgs
      ∧ pkgs.find? (fun p => p.name == papp.name) = some mp
      ∧ cN.get_published_package papp.name =
          some { package := mp, sha1 := repoN.tag_commit "app-v2.0.0" } :=
  claim_c4_first_matching_tag projN repoN papp .new cN { supply := ["tmp"] } { supply := [] }
    "app-v2.0.0" rfl rfl

/-- Claim C5, witness: the directory `dv` resolves to origin commit
`abc123` and its vcs-info file is gone afterwards. -/
theorem claim_c5_vcs_info_witness :
    ∃ dd, initialize_registry_package_full [dv]
        = .ok [({ package := dv.package, sha1 := some "abc123" }, dd)]
      ∧ dd.vcs_info = none :=
  (claim_c5_vcs_info dv rfl rfl rfl).2.1 (some "abc123") rfl rfl

/-- Claim C6, witness: packages publishing to `r1`, `r2`, `r1` in that
order fragment into three downloader invocations. -/
theorem claim_c6_registry_grouping_witness :
    (∀ p r, registry_for (some r) p = some r)
    ∧ (∀ p, registry_for none p = p.publish.bind List.head?)
    ∧ ∃ d, cR.temp_dir = some d
        ∧ callsR = (chunkBy (registry_for none) [pr1, pr2, pr3]).map
            (fun g => { names := g.2.map Package.name, dir := d, registry := g.1 }) :=
  claim_c6_registry_grouping env0 none [pr1, pr2, pr3] .new cR
    { supply := ["tmp"] } { supply := [] } callsR rfl

/-- Claim C7, witness: after inserting two entries named `app`, lookup
returns the second. -/
theorem claim_c7_collection_lookup_witness :
    ((PackagesCollection.new.extend [q1, q2]).packages.map Prod.fst).Nodup
    ∧ (PackagesCollection.new.extend [q1, q2]).get_published_package "app" =
        (match [q1, q2].reverse.find? (fun p => p.package.name == "app") with
          | some p => some p
          | none => PackagesCollection.new.get_published_package "app")
    ∧ (PackagesCollection.new.push q1).get_published_package q1.package.name = some q1
    ∧ (PackagesCollection.new.extend [q1, q2]).get_package "app"
        = ((PackagesCollection.new.extend [q1, q2]).get_published_package "app").map
            PublishedPackage.package :=
  claim_c7_collection_lookup .new [q1, q2] "app" q1 (by simp [PackagesCollection.new])

/-- Claim C8, witness: `plib` has no matching tag in `repoN`; resolving
`[plib, papp]` equals resolving `[papp]`, and `lib` is absent from the
result. -/
theorem claim_c8_no_tag_skip_witness :
    (get_latest_tagged_packages projN repoN (plib :: [papp]) .new { supply := ["tmp"] }
      = get_latest_tagged_packages projN repoN [papp] .new { supply := ["tmp"] })
    ∧ cN.get_published_package plib.name = none := by
  have h := claim_c8_no_tag_skip projN repoN plib [papp] .new { supply := ["tmp"] } rfl
  exact ⟨h.1, h.2 cN { supply := [] } rfl rfl⟩

/-- Claim C9, witness: allocating from a fresh collection records `tmpA`,
and the recorded directory persists. -/
theorem claim_c9_temp_dir_once_witness :
    cT.temp_dir = some "tmpA"
    ∧ (∀ w2, cT.temp_dir_get w2 = .ok ("tmpA", cT, w2))
    ∧ (PackagesCollection.new.temp_dir = some "tmpA" →
        cT = PackagesCollection.new ∧ ({ supply := ["tmpB"] } : World) =
          { supply := ["tmpA", "tmpB"] })
    ∧ (∀ project repo ps c2 w2 w3,
        get_latest_tagged_packages project repo ps cT w2 = .ok (c2, w3) →
        c2.temp_dir = some "tmpA")
    ∧ (∀ env rm ps reg c2 w2 w3 calls,
        get_registry_packages env rm ps reg cT w2 = .ok (c2, w3, calls) →
        c2.temp_dir = some "tmpA") :=
  claim_c9_temp_dir_once .new cT { supply := ["tmpA", "tmpB"] } { supply := ["tmpB"] }
    "tmpA" rfl

/-- Claim C10, witness: manifest-based resolution leaves the scratch
directory unallocated, the directory supply untouched and makes no
downloader invocation. -/
theorem claim_c10_manifest_frame_witness :
    cM.temp_dir = PackagesCollection.new.temp_dir
    ∧ ({ supply := ["tmp"] } : World) = { supply := ["tmp"] }
    ∧ ([] : List DownloadCall) = [] :=
  claim_c10_manifest_frame env0 "Cargo.toml" [] none .new cM
    { supply := ["tmp"] } { supply := ["tmp"] } [] rfl

end ReleasePlz
